import Mathlib

/-!
Verification of the NewBets learning stack (src/src/ai), against the
natural-language specification.

The development shallowly embeds the two core components:

* the quantum-inspired hyperparameter optimizer (`src/src/ai/quantum-optimizer.js`,
  both the synchronous variant and the seeded async variant), and
* the feedforward neural network (`src/src/ai/neural-network.js`).

JavaScript numbers are modelled as real numbers (`ℝ`); quantities that the
source computes with 32-bit unsigned integer semantics (the xorshift32 RNG)
are modelled as `ℕ` with explicit `% 2^32`; RNG outputs, which are always
dyadic rationals `x / 2^32`, are modelled as `ℚ` and coerced into `ℝ` where
the source mixes them into floating-point formulas.
-/

namespace NewBets

/-! ## Seeded RNG (quantum-optimizer.js, `seededRng`, lines 348-367)

`xs32` is one step of the xorshift32 generator: in JS,
`x ^= (x << 13) >>> 0; x ^= x >>> 17; x ^= (x << 5) >>> 0`.
On a state `x < 2^32`, `(x << 13) >>> 0` is `x * 2^13 % 2^32` and
`x >>> 17` is `x / 2^17` (natural division). -/
def xs32 (x : ℕ) : ℕ :=
  let x1 := (x ^^^ (x * 8192 % 4294967296)) % 4294967296
  let x2 := x1 ^^^ (x1 / 131072)
  (x2 ^^^ (x2 * 32 % 4294967296)) % 4294967296

/-- RNG state: the current 32-bit integer `x` of the xorshift32 stream. -/
abbrev RngState := ℕ

/-- One call of `rng.random()`: advance the state, return `(x >>> 0) / 2^32`. -/
def rngRandom (s : RngState) : ℚ × RngState :=
  let x := xs32 s
  ((x : ℚ) / 4294967296, x)

/-- One call of `rng.int(n)`: `Math.floor(this.random() * n)`. -/
def rngInt (s : RngState) (n : ℕ) : ℕ × RngState :=
  let r := rngRandom s
  ((⌊r.1 * n⌋).toNat, r.2)

theorem xs32_lt (x : ℕ) : xs32 x < 4294967296 := by
  unfold xs32
  exact Nat.mod_lt _ (by norm_num)

theorem rngRandom_nonneg (s : RngState) : 0 ≤ (rngRandom s).1 := by
  unfold rngRandom
  positivity

theorem rngRandom_lt_one (s : RngState) : (rngRandom s).1 < 1 := by
  unfold rngRandom
  rw [div_lt_one (by norm_num)]
  exact_mod_cast xs32_lt s

/-! ## Quantum state constructors

Variant 1 (`_createQuantumState`, lines 34-40) stores the angle together with
the amplitude pair; variant 2 (`thetaToQstate`, lines 405-407) derives the
amplitude pair from the stored angle on demand.  In both variants every
stored or derived amplitude pair is produced by exactly these functions
(initialisation line 59, rotation update line 146, collapse line 432);
the pair is never mutated independently of the angle. -/

structure QuantumState where
  theta : ℝ
  alpha : ℝ
  beta : ℝ

/-- Source `_createQuantumState(theta)`: `{theta, alpha: cos θ, beta: sin θ}`. -/
noncomputable def createQuantumState (theta : ℝ) : QuantumState :=
  ⟨theta, Real.cos theta, Real.sin theta⟩

structure Qstate where
  alpha : ℝ
  beta : ℝ

/-- Source `thetaToQstate(theta)`: `{alpha: cos θ, beta: sin θ}`. -/
noncomputable def thetaToQstate (theta : ℝ) : Qstate :=
  ⟨Real.cos theta, Real.sin theta⟩

/-! ## Best-fitness tracking (C2)

Both optimizer variants update the global best with a strict comparison:
variant 1, `optimize` lines 212-223 (`if (individual.fitness > this.bestFitness)`)
and variant 2, `tuneHyperparametersAsync` lines 591-598
(`if (fitness > this.bestFitness)`), and push the resulting `bestFitness`
into the history once per iteration.  `bestFitness` starts at `-Infinity`,
modelled as `⊥ : WithBot ℚ`; the individual fitness values delivered by one
iteration's evaluation loop are abstracted as a list of rationals (in the
source they are validation accuracies `correct / total`). -/

/-- One best-fitness update: `if (fitness > bestFitness) bestFitness = fitness`. -/
def updateBest (best : WithBot ℚ) (fitness : ℚ) : WithBot ℚ :=
  if best < (fitness : WithBot ℚ) then (fitness : WithBot ℚ) else best

/-- Folding the strict-improvement update over one iteration's evaluations. -/
def iterateBest (best : WithBot ℚ) (fits : List ℚ) : WithBot ℚ :=
  fits.foldl updateBest best

/-- The per-iteration `bestFitness` values pushed into the history: one entry
after each iteration's evaluation loop. -/
def bestFitnessHistory (best : WithBot ℚ) : List (List ℚ) → List (WithBot ℚ)
  | [] => []
  | fits :: rest =>
      let b := iterateBest best fits
      b :: bestFitnessHistory b rest

theorem le_updateBest (best : WithBot ℚ) (f : ℚ) : best ≤ updateBest best f := by
  unfold updateBest
  split
  · exact le_of_lt (by assumption)
  · exact le_refl _

theorem le_iterateBest (best : WithBot ℚ) (fits : List ℚ) :
    best ≤ iterateBest best fits := by
  induction fits generalizing best with
  | nil => exact le_refl _
  | cons f rest ih =>
      exact le_trans (le_updateBest best f) (ih (updateBest best f))

/-! ## Async optimizer (quantum-optimizer.js lines 335-649)

Helper functions for JavaScript arithmetic: `Math.min(1, Math.max(0, x))`,
the sign-preserving `%` operator (which truncates the quotient toward zero),
and `Math.round` (half-up). -/

/-- JS `Math.min(1, Math.max(0, x))`. -/
noncomputable def clamp01 (x : ℝ) : ℝ := min 1 (max 0 x)

/-- Truncation toward zero, as used by the JS `%` operator. -/
noncomputable def jsTrunc (x : ℝ) : ℤ := if 0 ≤ x then ⌊x⌋ else ⌈x⌉

/-- JS remainder `a % m`: `a - m * trunc (a / m)`. -/
noncomputable def jsFmod (a m : ℝ) : ℝ := a - m * jsTrunc (a / m)

/-- JS `Math.round`: nearest integer, half toward positive infinity. -/
noncomputable def jsRound (x : ℝ) : ℤ := ⌊x + 1 / 2⌋

/-- One member of the async optimizer population: a classical position vector,
a phase-angle vector, and the fitness recorded by the last evaluation
(`-Infinity` before the first one, modelled as `⊥`). -/
structure Individual where
  position : List ℝ
  theta : List ℝ
  fitness : WithBot ℝ

/-- Source `mapPositionToParams(position, keys, bounds)` (lines 372-385):
`raw = min + position[i] * (max - min)`; when `Number.isInteger(min)` and
`Number.isInteger(max)` the value is `Math.round(raw)`.  Bounds are modelled
as rationals so that integrality of the declared endpoints is meaningful;
the named `keys` only label the output, so parameters are returned
positionally. -/
noncomputable def mapPositionToParams (position : List ℝ) (bounds : List (ℚ × ℚ)) :
    List ℝ :=
  (List.range bounds.length).map fun i =>
    let b := bounds.getD i (0, 0)
    let raw : ℝ := (b.1 : ℝ) + position.getD i 0 * ((b.2 : ℝ) - (b.1 : ℝ))
    if b.1.den = 1 ∧ b.2.den = 1 then ((jsRound raw : ℤ) : ℝ) else raw

/-- Per-dimension draws of `initializePopulation` (lines 388-402):
`position[d] = rng.random(); theta[d] = rng.random() * Math.PI * 2`. -/
noncomputable def mkDims : ℕ → RngState → List ℝ × List ℝ × RngState
  | 0, s => ([], [], s)
  | d + 1, s =>
      let p := rngRandom s
      let t := rngRandom p.2
      let rest := mkDims d t.2
      (((p.1 : ℝ)) :: rest.1, ((t.1 : ℝ) * Real.pi * 2) :: rest.2.1, rest.2.2)

/-- Source `initializePopulation(dimension, rng)`: `populationSize` individuals,
positions and thetas drawn from the one rng stream, fitness `-Infinity`. -/
noncomputable def initializePopulation (dim popSize : ℕ) (s : RngState) :
    List Individual × RngState :=
  match popSize with
  | 0 => ([], s)
  | n + 1 =>
      let d := mkDims dim s
      let rest := initializePopulation dim n d.2.2
      (⟨d.1, d.2.1, ⊥⟩ :: rest.1, rest.2)

/-- The 8-round seed-mixing loop of `createIndividualRng` (lines 543-553):
`s = (s ^ Math.floor(forkSeedRng.random() * 0xFFFFFFFF)) >>> 0`. -/
def mixSeed : ℕ → ℕ → RngState → ℕ
  | 0, acc, _ => acc
  | n + 1, acc, r =>
      let q := rngRandom r
      mixSeed n ((acc ^^^ (⌊q.1 * 4294967295⌋).toNat) % 4294967296) q.2

/-- Source `createIndividualRng(index)`: starts from `2166136261 ^ index`
(`>>> 0`) and mixes in 8 draws from a fresh stream seeded with the master
seed; returns the state of `seededRng(s)`. -/
def createIndividualRng (seed index : ℕ) : RngState :=
  mixSeed 8 ((2166136261 ^^^ index) % 4294967296) (seed % 4294967296)

/-- The body of the per-dimension loop of `quantumRotate` (lines 414-443),
acting on the running `(position, theta, rng)` state for dimension `d`.
The rng is consulted for the tie-break only when the difference is zero,
always for the step magnitude, and for the perturbation only when no global
best exists, exactly as in the source. -/
noncomputable def rotateDim (gb : Option (List ℝ)) (baseStep : ℝ)
    (st : List ℝ × List ℝ × RngState) (d : ℕ) : List ℝ × List ℝ × RngState :=
  let pos := st.1
  let th := st.2.1
  let s := st.2.2
  let dirState : ℝ × RngState :=
    match gb with
    | some g =>
        let diff := g.getD d 0 - pos.getD d 0
        if diff = 0 then
          let r := rngRandom s
          (if (r.1 : ℝ) < 0.5 then -1 else 1, r.2)
        else (if 0 < diff then 1 else -1, s)
    | none =>
        let r := rngRandom s
        (if (r.1 : ℝ) < 0.5 then -1 else 1, r.2)
  let rs := rngRandom dirState.2
  let step := baseStep * (0.3 + (rs.1 : ℝ) * 0.7)
  let newTheta :=
    jsFmod (jsFmod (th.getD d 0 + dirState.1 * step) (Real.pi * 2) + Real.pi * 2)
      (Real.pi * 2)
  let th2 := th.set d newTheta
  let q := thetaToQstate newTheta
  let prob := min 1 (max 0 (q.alpha * q.alpha))
  match gb with
  | some g =>
      (pos.set d (pos.getD d 0 * (1 - prob) + g.getD d 0 * prob), th2, rs.2)
  | none =>
      let rp := rngRandom rs.2
      (pos.set d (clamp01 (pos.getD d 0 + ((rp.1 : ℝ) - 0.5) * 0.02)), th2, rp.2)

/-- Source `quantumRotate(individual, globalBestPosition, iter, maxIter, rng)`
(lines 410-444): shrinking base step, then the per-dimension loop. -/
noncomputable def quantumRotate (ind : Individual) (gb : Option (List ℝ))
    (iter maxIter : ℕ) (s : RngState) : Individual × RngState :=
  let progressFactor : ℝ := (iter : ℝ) / ((max 1 (maxIter - 1) : ℕ) : ℝ)
  let baseStep : ℝ := 0.5 * (1 - progressFactor) + 0.05
  let r := (List.range ind.position.length).foldl (rotateDim gb baseStep)
    (ind.position, ind.theta, s)
  (⟨r.1, r.2.1, ind.fitness⟩, r.2.2)

/-- Source `quantumTunnel(individual, rng, tunnelProbability)` (lines 447-453):
with probability `tunnelProbability` pick one dimension, add a clamped offset
`(rng.random() - 0.5) * 0.2` to its position and advance its theta by
`rng.random() * (Math.PI / 2)` modulo `2π`. -/
noncomputable def quantumTunnel (ind : Individual) (s : RngState)
    (tunnelProbability : ℝ) : Individual × RngState :=
  let r := rngRandom s
  if (r.1 : ℝ) < tunnelProbability then
    let di := rngInt r.2 ind.position.length
    let r2 := rngRandom di.2
    let pos2 := ind.position.set di.1
      (clamp01 (ind.position.getD di.1 0 + ((r2.1 : ℝ) - 0.5) * 0.2))
    let r3 := rngRandom r2.2
    let th2 := ind.theta.set di.1
      (jsFmod (ind.theta.getD di.1 0 + (r3.1 : ℝ) * (Real.pi / 2)) (Real.pi * 2))
    (⟨pos2, th2, ind.fitness⟩, r3.2)
  else (ind, r.2)

/-- The sequential evaluation loop of `tuneHyperparametersAsync`
(lines 558-602): decode each individual, call the objective, store the
fitness, and update the global best on strict improvement, keeping a copy of
the best position together with its decoded parameters. -/
noncomputable def evalPopulation (obj : List ℝ → ℝ) (bounds : List (ℚ × ℚ)) :
    List Individual → WithBot ℝ → Option (List ℝ × List ℝ) →
      List Individual × WithBot ℝ × Option (List ℝ × List ℝ)
  | [], best, bestSol => ([], best, bestSol)
  | ind :: rest, best, bestSol =>
      let params := mapPositionToParams ind.position bounds
      let fitness := obj params
      let upd :=
        if best < (fitness : WithBot ℝ) then
          ((fitness : WithBot ℝ),
            some (ind.position, mapPositionToParams ind.position bounds))
        else (best, bestSol)
      let r := evalPopulation obj bounds rest upd.1 upd.2
      (⟨ind.position, ind.theta, (fitness : WithBot ℝ)⟩ :: r.1, r.2)

/-- One record of `this.history` (line 606). -/
structure HistEntry where
  iteration : ℕ
  bestFitness : WithBot ℝ
  avgFitness : WithBot ℝ

/-- Running state of the tuning loop: population, global best fitness, best
solution (position together with decoded parameters), history. -/
structure LoopState where
  population : List Individual
  bestFitness : WithBot ℝ
  bestSolution : Option (List ℝ × List ℝ)
  history : List HistEntry

/-- The convergence test of lines 626-630: the spread `max - min` of the last
8 recorded best-fitness values is below `1e-9`.  When any of the extremes is
not a finite number the JS comparison with `NaN` or `Infinity` is false and
no break occurs, which the existential formulation reproduces. -/
def recentImprovementSmall (recent : List (WithBot ℝ)) : Prop :=
  ∃ M m : ℝ, recent.max? = some ((M : ℝ) : WithBot ℝ) ∧
    recent.min? = some ((m : ℝ) : WithBot ℝ) ∧ M - m < 1 / 1000000000

/-- One full iteration of `tuneHyperparametersAsync` (lines 556-633):
evaluate the population, record `(iteration, bestFitness, avgFitness)`,
then rotate toward the best and tunnel, each individual with its own rng
derived from the master seed and `i + iter * population.length + 12345`. -/
noncomputable def tuneIter (obj : List ℝ → ℝ) (bounds : List (ℚ × ℚ)) (seed : ℕ)
    (tunnelProb : ℝ) (maxIter : ℕ) (iter : ℕ) (st : LoopState) : LoopState :=
  let ev := evalPopulation obj bounds st.population st.bestFitness st.bestSolution
  let pop1 := ev.1
  let best1 := ev.2.1
  let bestSol1 := ev.2.2
  let avg : WithBot ℝ :=
    (pop1.foldl (fun acc ind => acc + ind.fitness) (0 : WithBot ℝ)).map
      (fun r => r / ((max 1 pop1.length : ℕ) : ℝ))
  let hist1 := st.history ++ [⟨iter, best1, avg⟩]
  let gb := bestSol1.map (·.1)
  let n := pop1.length
  let pop2 := pop1.mapIdx fun i ind =>
    let r0 := createIndividualRng seed (i + iter * n + 12345)
    let rot := quantumRotate ind gb iter maxIter r0
    (quantumTunnel rot.1 rot.2 tunnelProb).1
  ⟨pop2, best1, bestSol1, hist1⟩

open Classical in
/-- The iteration loop with its convergence break, by fuel. -/
noncomputable def tuneLoop (obj : List ℝ → ℝ) (bounds : List (ℚ × ℚ)) (seed : ℕ)
    (tunnelProb : ℝ) (maxIter : ℕ) : ℕ → ℕ → LoopState → LoopState
  | 0, _, st => st
  | fuel + 1, iter, st =>
      let st1 := tuneIter obj bounds seed tunnelProb maxIter iter st
      if st1.history.length > 8 ∧
          recentImprovementSmall
            ((st1.history.drop (st1.history.length - 8)).map (·.bestFitness)) then
        st1
      else tuneLoop obj bounds seed tunnelProb maxIter fuel (iter + 1) st1

open Classical in
/-- Trajectory view of the same loop: the loop state after every executed
iteration, in order.  Built from the same `tuneIter` body and the same break
condition, so it records exactly the positions and thetas of every
individual at every iteration of the run. -/
noncomputable def tuneStates (obj : List ℝ → ℝ) (bounds : List (ℚ × ℚ)) (seed : ℕ)
    (tunnelProb : ℝ) (maxIter : ℕ) : ℕ → ℕ → LoopState → List LoopState
  | 0, _, _ => []
  | fuel + 1, iter, st =>
      let st1 := tuneIter obj bounds seed tunnelProb maxIter iter st
      if st1.history.length > 8 ∧
          recentImprovementSmall
            ((st1.history.drop (st1.history.length - 8)).map (·.bestFitness)) then
        [st1]
      else st1 :: tuneStates obj bounds seed tunnelProb maxIter fuel (iter + 1) st1

/-- Result record of `tuneHyperparametersAsync` (lines 636-640). -/
structure TuneResult where
  solution : Option (List ℝ)
  fitness : WithBot ℝ
  history : List HistEntry

/-- Source `tuneHyperparametersAsync` (lines 521-641): seed the master rng
with `seed >>> 0`, initialize the population from it, run the loop, return
the decoded best parameters, the best fitness and the history. -/
noncomputable def tuneHyperparameters (obj : List ℝ → ℝ) (bounds : List (ℚ × ℚ))
    (popSize maxIter : ℕ) (tunnelProb : ℝ) (seed : ℕ) : TuneResult :=
  let s0 := seed % 4294967296
  let init := initializePopulation bounds.length popSize s0
  let st0 : LoopState := ⟨init.1, ⊥, none, []⟩
  let stF := tuneLoop obj bounds s0 tunnelProb maxIter maxIter 0 st0
  ⟨stF.bestSolution.map (·.2), stF.bestFitness, stF.history⟩

/-- Trajectory of a run: loop states after every executed iteration. -/
noncomputable def tuneTrajectory (obj : List ℝ → ℝ) (bounds : List (ℚ × ℚ))
    (popSize maxIter : ℕ) (tunnelProb : ℝ) (seed : ℕ) : List LoopState :=
  let s0 := seed % 4294967296
  let init := initializePopulation bounds.length popSize s0
  let st0 : LoopState := ⟨init.1, ⊥, none, []⟩
  tuneStates obj bounds s0 tunnelProb maxIter maxIter 0 st0

/-! ## Neural network (neural-network.js lines 1-430)

The network state carries exactly the fields of the source class.  `bestLoss`
starts at `Infinity`, modelled as `⊤ : WithTop ℝ`.  The `Math.random()` draws
that build dropout masks in training mode are abstracted as an ambient source
`rand : ℕ → ℕ → ℝ` indexed by layer and unit; inference-mode computations
never consult it. -/

structure NeuralNetwork where
  inputSize : ℕ
  hiddenLayers : List ℕ
  outputSize : ℕ
  learningRate : ℝ
  momentum : ℝ
  l2Lambda : ℝ
  dropoutRate : ℝ
  leakyAlpha : ℝ
  epochs : ℕ
  trainingLoss : List ℝ
  validationLoss : List ℝ
  bestLoss : WithTop ℝ
  patience : ℕ
  patienceCounter : ℕ
  weights : List (List (List ℝ))
  biases : List (List ℝ)
  velocities : List (List (List ℝ) × List ℝ)

/-- Source `_sigmoid(x)` (lines 92-94): logistic sigmoid with the argument
clamped to `[-500, 500]` before exponentiation. -/
noncomputable def sigmoid (x : ℝ) : ℝ :=
  1 / (1 + Real.exp (-(max (-500) (min 500 x))))

/-- Source `_leakyReLU(x)` (lines 80-82). -/
noncomputable def leakyReLU (alpha x : ℝ) : ℝ := if 0 < x then x else alpha * x

/-- One row of the linear transformation of `forward` (lines 118-124):
`sum = biases[i][j]; for (k < current.length) sum += w[k] * current[k]`.
The loop bound is `current.length`, taken from the input vector: a too-short
input silently produces a partial dot product, with no length check.
(A too-long input makes the source read past the row and produce `NaN`;
that case is outside this real-valued model and is not relied on.) -/
noncomputable def rowSum (w cur : List ℝ) (init : ℝ) : ℝ :=
  (List.range cur.length).foldl (fun acc k => acc + w.getD k 0 * cur.getD k 0) init

/-- The layer loop of `forward` (lines 114-149), peeled off the front of the
weight list; `idx` numbers the layers for the dropout randomness source.
Returns (activations after each layer, pre-activations, dropout masks);
the source pushes masks only for hidden layers (`null` outside training). -/
noncomputable def forwardAux (alpha dr : ℝ) (training : Bool) (rand : ℕ → ℕ → ℝ) :
    ℕ → List (List (List ℝ)) → List (List ℝ) → List ℝ →
      List (List ℝ) × List (List ℝ) × List (Option (List ℝ))
  | _, [], _, _ => ([], [], [])
  | idx, W :: Ws, bs, cur =>
      let b := bs.headD []
      let z := (List.range W.length).map fun j => rowSum (W.getD j []) cur (b.getD j 0)
      if Ws.isEmpty then
        ([z.map sigmoid], [z], [])
      else
        let a0 := z.map (leakyReLU alpha)
        let step : List ℝ × Option (List ℝ) :=
          if training then
            let mask := (List.range a0.length).map fun j =>
              if dr < rand idx j then 1 / (1 - dr) else 0
            (a0.zipWith (fun v m => v * m) mask, some mask)
          else (a0, none)
        let rest := forwardAux alpha dr training rand (idx + 1) Ws bs.tail step.1
        (step.1 :: rest.1, z :: rest.2.1, step.2 :: rest.2.2)

/-- Result of `forward` (line 151): `{activations, preActivations, dropoutMasks}`. -/
structure ForwardResult where
  activations : List (List ℝ)
  preActivations : List (List ℝ)
  dropoutMasks : List (Option (List ℝ))

/-- Source `forward(input, training)` (lines 107-152). -/
noncomputable def forward (nn : NeuralNetwork) (input : List ℝ) (training : Bool)
    (rand : ℕ → ℕ → ℝ) : ForwardResult :=
  let r := forwardAux nn.leakyAlpha nn.dropoutRate training rand 0 nn.weights nn.biases
    input
  ⟨input :: r.1, r.2.1, r.2.2⟩

/-- Source `predict(input)` (lines 377-380):
`forward(input, false)` then `activations[activations.length - 1][0]`;
reading `[0]` of an empty output row has no value, hence the `Option`. -/
noncomputable def predict (nn : NeuralNetwork) (input : List ℝ) : Option ℝ :=
  ((forward nn input false fun _ _ => 0).activations.getLastD []).head?

/-- The serialized snapshot produced by `toJSON` (lines 385-401); velocities,
`leakyAlpha`, `patience` and `patienceCounter` are not serialized. -/
structure NNJson where
  inputSize : ℕ
  hiddenLayers : List ℕ
  outputSize : ℕ
  weights : List (List (List ℝ))
  biases : List (List ℝ)
  learningRate : ℝ
  momentum : ℝ
  l2Lambda : ℝ
  dropoutRate : ℝ
  epochs : ℕ
  trainingLoss : List ℝ
  validationLoss : List ℝ
  bestLoss : WithTop ℝ

/-- Source `toJSON()` (lines 385-401). -/
def toJSON (nn : NeuralNetwork) : NNJson :=
  ⟨nn.inputSize, nn.hiddenLayers, nn.outputSize, nn.weights, nn.biases,
    nn.learningRate, nn.momentum, nn.l2Lambda, nn.dropoutRate, nn.epochs,
    nn.trainingLoss, nn.validationLoss, nn.bestLoss⟩

open Classical in
/-- JS numeric truthiness default `x || d`: `0` is falsy, so a stored zero is
replaced by the constructor default. -/
noncomputable def orDefault (x d : ℝ) : ℝ := if x = 0 then d else x

open Classical in
/-- Source `NeuralNetwork.fromJSON(json)` (lines 406-429): rebuild the network,
overwrite weights and biases, restore each hyperparameter with
`json.field || default`, restore `bestLoss` with `json.bestLoss || Infinity`,
and reinitialize the velocities to zeros of the weight/bias shapes.
`leakyAlpha`, `patience` and `patienceCounter` keep the constructor values.
(`json.trainingLoss || []` keeps any present array, since arrays are truthy.) -/
noncomputable def fromJSON (json : NNJson) : NeuralNetwork where
  inputSize := json.inputSize
  hiddenLayers := json.hiddenLayers
  outputSize := json.outputSize
  learningRate := orDefault json.learningRate 0.001
  momentum := orDefault json.momentum 0.9
  l2Lambda := orDefault json.l2Lambda 0.0001
  dropoutRate := orDefault json.dropoutRate 0.2
  leakyAlpha := 0.01
  epochs := json.epochs
  trainingLoss := json.trainingLoss
  validationLoss := json.validationLoss
  bestLoss := if json.bestLoss = 0 then ⊤ else json.bestLoss
  patience := 10
  patienceCounter := 0
  weights := json.weights
  biases := json.biases
  velocities :=
    (List.range json.weights.length).map fun i =>
      ((json.weights.getD i []).map fun row => row.map fun _ => (0 : ℝ),
        (json.biases.getD i []).map fun _ => (0 : ℝ))

/-- Every velocity entry, weight and bias alike, is zero. -/
def velocitiesZero (vs : List (List (List ℝ) × List ℝ)) : Prop :=
  ∀ p ∈ vs, (∀ row ∈ p.1, ∀ v ∈ row, v = 0) ∧ ∀ v ∈ p.2, v = 0

/-- No dropout mask was sampled in this forward pass. -/
def noDropoutMasks (fr : ForwardResult) : Prop :=
  ∀ m ∈ fr.dropoutMasks, m = none

/-! ## Early stopping (neural-network.js `train`, lines 334-356)

The patience logic consumes the sequence of per-epoch validation losses;
that sequence is abstracted as the input list (in the source each entry is
the mean squared validation error of the epoch).  `bestLoss` starts at
`Infinity` (`⊤`). -/

/-- One epoch of the early-stopping bookkeeping: on improvement store the new
best and reset the counter, otherwise increment the counter. -/
def esStep (st : WithTop ℚ × ℕ) (v : ℚ) : WithTop ℚ × ℕ :=
  if (v : WithTop ℚ) < st.1 then ((v : WithTop ℚ), 0) else (st.1, st.2 + 1)

/-- The training loop's early-stopping exit: after a non-improving epoch the
loop breaks as soon as `patienceCounter >= patience` (lines 343-355).
Returns whether the loop broke early. -/
def runEarlyStop (patience : ℕ) : WithTop ℚ × ℕ → List ℚ → Bool
  | _, [] => false
  | st, v :: rest =>
      if (v : WithTop ℚ) < st.1 then runEarlyStop patience ((v : WithTop ℚ), 0) rest
      else if patience ≤ st.2 + 1 then true
      else runEarlyStop patience (st.1, st.2 + 1) rest

/-- The sequence of `(bestLoss, patienceCounter)` states the bookkeeping
produces, without the break. -/
def esScan (st : WithTop ℚ × ℕ) (losses : List ℚ) : List (WithTop ℚ × ℕ) :=
  losses.scanl esStep st

/-! ## Claim theorems -/

/-- C1: for every individual, at every iteration and every dimension, the
amplitude pair derived from the stored phase angle satisfies
`cos²θ + sin²θ = 1`, because every pair is produced by `thetaToQstate`
(async variant) or `_createQuantumState` (sync variant), which recompute it
as `(cos θ, sin θ)` from the angle; the pair is never stored or mutated
independently of the angle. -/
theorem quantum_state_normalized (theta : ℝ) :
    (thetaToQstate theta).alpha ^ 2 + (thetaToQstate theta).beta ^ 2 = 1 ∧
      (createQuantumState theta).alpha ^ 2 +
        (createQuantumState theta).beta ^ 2 = 1 := by
  constructor <;>
    simp [thetaToQstate, createQuantumState, Real.cos_sq_add_sin_sq]

/-- C2: within one run, the recorded per-iteration best-fitness values never
decrease: the stored best is replaced only on strict improvement
(`optimize` lines 212-223 and `tuneHyperparametersAsync` lines 591-598),
so the history is a `≤`-chain for every starting best (including the initial
`-Infinity`) and every sequence of per-iteration evaluation results. -/
theorem bestFitnessHistory_monotone (best : WithBot ℚ) (iters : List (List ℚ)) :
    List.Chain' (· ≤ ·) (bestFitnessHistory best iters) := by
  induction iters generalizing best with
  | nil => simp [bestFitnessHistory]
  | cons fits rest ih =>
      cases rest with
      | nil => simp [bestFitnessHistory]
      | cons fits2 rest2 =>
          simp only [bestFitnessHistory]
          rw [List.chain'_cons]
          exact ⟨le_iterateBest _ _, ih (iterateBest best fits)⟩

/-- C5: two optimizer runs with identical seed, identical configuration
(bounds, population size, iteration cap, tunneling probability) and the same
deterministic objective produce identical trajectories — the same loop state
(every individual's position and theta vectors) after every iteration — and
identical results, because every random decision of
`tuneHyperparametersAsync` is drawn from the explicit seeded xorshift32
streams derived from the one seed. -/
theorem tune_deterministic (obj : List ℝ → ℝ) (bounds : List (ℚ × ℚ))
    (popSize maxIter : ℕ) (tp : ℝ) (seed1 seed2 : ℕ) (h : seed1 = seed2) :
    tuneTrajectory obj bounds popSize maxIter tp seed1 =
        tuneTrajectory obj bounds popSize maxIter tp seed2 ∧
      tuneHyperparameters obj bounds popSize maxIter tp seed1 =
        tuneHyperparameters obj bounds popSize maxIter tp seed2 := by
  subst h
  exact ⟨rfl, rfl⟩

theorem tune_deterministic_witness :
    tuneTrajectory (fun _ => (0 : ℝ)) [] 1 1 0 7 =
        tuneTrajectory (fun _ => (0 : ℝ)) [] 1 1 0 7 ∧
      tuneHyperparameters (fun _ => (0 : ℝ)) [] 1 1 0 7 =
        tuneHyperparameters (fun _ => (0 : ℝ)) [] 1 1 0 7 :=
  tune_deterministic (fun _ => 0) [] 1 1 0 7 7 rfl

/-- C9: restoring a snapshot in which `learningRate`, `momentum`, `l2Lambda`
or `dropoutRate` is stored as `0` (or `bestLoss` as `0`) yields the
constructor default for that field instead of the stored zero, because
`fromJSON` restores each with JS `json.field || default` and `0` is falsy. -/
theorem fromJSON_zero_restores_defaults (j : NNJson) :
    (j.learningRate = 0 → (fromJSON j).learningRate = 0.001) ∧
      (j.momentum = 0 → (fromJSON j).momentum = 0.9) ∧
      (j.l2Lambda = 0 → (fromJSON j).l2Lambda = 0.0001) ∧
      (j.dropoutRate = 0 → (fromJSON j).dropoutRate = 0.2) ∧
      (j.bestLoss = 0 → (fromJSON j).bestLoss = ⊤) := by
  refine ⟨fun h => ?_, fun h => ?_, fun h => ?_, fun h => ?_, fun h => ?_⟩ <;>
    simp [fromJSON, orDefault, h]

/-- Snapshot with every zero-able numeric field stored as zero. -/
def zeroJson : NNJson :=
  ⟨1, [], 1, [[[1]]], [[0]], 0, 0, 0, 0, 0, [], [], 0⟩

theorem fromJSON_zero_restores_defaults_witness :
    (fromJSON zeroJson).learningRate = 0.001 ∧
      (fromJSON zeroJson).momentum = 0.9 ∧
      (fromJSON zeroJson).l2Lambda = 0.0001 ∧
      (fromJSON zeroJson).dropoutRate = 0.2 ∧
      (fromJSON zeroJson).bestLoss = ⊤ :=
  ⟨(fromJSON_zero_restores_defaults zeroJson).1 rfl,
    (fromJSON_zero_restores_defaults zeroJson).2.1 rfl,
    (fromJSON_zero_restores_defaults zeroJson).2.2.1 rfl,
    (fromJSON_zero_restores_defaults zeroJson).2.2.2.1 rfl,
    (fromJSON_zero_restores_defaults zeroJson).2.2.2.2 rfl⟩

theorem forwardAux_inference_irrel (alpha dr dr' : ℝ) (rand rand' : ℕ → ℕ → ℝ)
    (layers : List (List (List ℝ))) :
    ∀ (idx idx' : ℕ) (bs : List (List ℝ)) (cur : List ℝ),
      forwardAux alpha dr false rand idx layers bs cur =
        forwardAux alpha dr' false rand' idx' layers bs cur := by
  induction layers with
  | nil => intro idx idx' bs cur; rfl
  | cons W Ws ih =>
      intro idx idx' bs cur
      simp only [forwardAux, Bool.false_eq_true, if_false]
      by_cases hW : Ws.isEmpty
      · simp [hW]
      · simp only [hW, if_false]
        rw [ih (idx + 1) (idx' + 1) bs.tail]

theorem mem_map_const_zero {α : Type} {l : List α} {v : ℝ}
    (h : v ∈ l.map fun _ => (0 : ℝ)) : v = 0 := by
  simp only [List.mem_map] at h
  obtain ⟨_, _, h⟩ := h
  exact h.symm

theorem fromJSON_velocitiesZero (j : NNJson) :
    velocitiesZero (fromJSON j).velocities := by
  intro p hp
  simp only [fromJSON, List.mem_map, List.mem_range] at hp
  obtain ⟨i, _, rfl⟩ := hp
  refine ⟨fun row hrow v hv => ?_, fun v hv => mem_map_const_zero hv⟩
  simp only [List.mem_map] at hrow
  obtain ⟨r0, _, rfl⟩ := hrow
  exact mem_map_const_zero hv

/-- C3: restoring a serialized network yields identical predictions on every
input, and the restored velocity accumulators are all exactly zero.
The hypothesis pins `leakyAlpha` at its constructor value `0.01`: the field
is not serialized and no source code path ever changes it, and restoring
sets it back to `0.01`. -/
theorem roundtrip_preserves_predict (nn : NeuralNetwork) (x : List ℝ)
    (h : nn.leakyAlpha = 0.01) :
    predict (fromJSON (toJSON nn)) x = predict nn x ∧
      velocitiesZero (fromJSON (toJSON nn)).velocities := by
  refine ⟨?_, fromJSON_velocitiesZero (toJSON nn)⟩
  simp only [predict, forward, fromJSON, toJSON, h]
  rw [forwardAux_inference_irrel 0.01 (orDefault nn.dropoutRate 0.2) nn.dropoutRate
    (fun _ _ => 0) (fun _ _ => 0) nn.weights 0 0 nn.biases x]

/-- Minimal concrete network: one input, no hidden layer, one output unit. -/
noncomputable def nnOne : NeuralNetwork where
  inputSize := 1
  hiddenLayers := []
  outputSize := 1
  learningRate := 0.001
  momentum := 0.9
  l2Lambda := 0.0001
  dropoutRate := 0.2
  leakyAlpha := 0.01
  epochs := 0
  trainingLoss := []
  validationLoss := []
  bestLoss := ⊤
  patience := 10
  patienceCounter := 0
  weights := [[[1]]]
  biases := [[0]]
  velocities := [([[0]], [0])]

theorem roundtrip_preserves_predict_witness :
    predict (fromJSON (toJSON nnOne)) [1] = predict nnOne [1] ∧
      velocitiesZero (fromJSON (toJSON nnOne)).velocities :=
  roundtrip_preserves_predict nnOne [1] rfl

theorem sigmoid_mem_unit (x : ℝ) : 0 ≤ sigmoid x ∧ sigmoid x ≤ 1 := by
  unfold sigmoid
  have he : 0 < Real.exp (-(max (-500) (min 500 x))) := Real.exp_pos _
  constructor
  · positivity
  · rw [div_le_one (by linarith)]
    linarith

theorem forwardAux_act_length (alpha dr : ℝ) (rand : ℕ → ℕ → ℝ)
    (layers : List (List (List ℝ))) :
    ∀ (idx : ℕ) (bs : List (List ℝ)) (cur : List ℝ),
      (forwardAux alpha dr false rand idx layers bs cur).1.length = layers.length := by
  induction layers with
  | nil => intro idx bs cur; rfl
  | cons W Ws ih =>
      intro idx bs cur
      simp only [forwardAux, Bool.false_eq_true, if_false]
      by_cases hW : Ws.isEmpty
      · simp [hW, List.isEmpty_iff.mp hW]
      · simp [hW, ih]

theorem forwardAux_getLast_sigmoid (alpha dr : ℝ) (rand : ℕ → ℕ → ℝ) :
    ∀ (layers : List (List (List ℝ))), layers ≠ [] →
      ∀ (idx : ℕ) (bs : List (List ℝ)) (cur : List ℝ),
        ∃ z : List ℝ,
          (forwardAux alpha dr false rand idx layers bs cur).1.getLast? =
            some (z.map sigmoid) := by
  intro layers
  induction layers with
  | nil => intro h; exact absurd rfl h
  | cons W Ws ih =>
      intro _ idx bs cur
      by_cases hW : Ws.isEmpty
      · refine ⟨(List.range W.length).map fun j =>
          rowSum (W.getD j []) cur ((bs.headD []).getD j 0), ?_⟩
        simp [forwardAux, hW]
      · have hWs : Ws ≠ [] := fun hc => hW (by simp [hc])
        obtain ⟨z, hz⟩ := ih hWs (idx + 1) bs.tail
          (((List.range W.length).map fun j =>
            rowSum (W.getD j []) cur ((bs.headD []).getD j 0)).map (leakyReLU alpha))
        refine ⟨z, ?_⟩
        simp only [forwardAux, Bool.false_eq_true, if_false]
        rw [if_neg hW]
        exact List.mem_getLast?_cons hz

theorem forwardAux_masks_none (alpha dr : ℝ) (rand : ℕ → ℕ → ℝ) :
    ∀ (layers : List (List (List ℝ))) (idx : ℕ) (bs : List (List ℝ))
      (cur : List ℝ),
      ∀ m ∈ (forwardAux alpha dr false rand idx layers bs cur).2.2, m = none := by
  intro layers
  induction layers with
  | nil => intro idx bs cur m hm; simp [forwardAux] at hm
  | cons W Ws ih =>
      intro idx bs cur m hm
      simp only [forwardAux, Bool.false_eq_true, if_false] at hm
      by_cases hW : Ws.isEmpty
      · rw [if_pos hW] at hm
        simp at hm
      · rw [if_neg hW] at hm
        simp only [List.mem_cons] at hm
        rcases hm with rfl | hm
        · rfl
        · exact ih (idx + 1) bs.tail _ m hm

/-- C10: every defined prediction lies in `[0, 1]`: the output layer applies
the logistic sigmoid with its argument clamped to `[-500, 500]`, and the
inference-mode forward pass samples no dropout mask.  The hypotheses require
at least one layer (the constructor always builds one) and that the output
row is non-empty so that `activations[last][0]` is defined. -/
theorem predict_in_unit_interval (nn : NeuralNetwork) (x : List ℝ) (v : ℝ)
    (hw : nn.weights ≠ []) (hv : predict nn x = some v) :
    0 ≤ v ∧ v ≤ 1 ∧ noDropoutMasks (forward nn x false fun _ _ => 0) := by
  obtain ⟨z, hz⟩ := forwardAux_getLast_sigmoid nn.leakyAlpha nn.dropoutRate
    (fun _ _ => 0) nn.weights hw 0 nn.biases x
  have hpred : predict nn x = (z.map sigmoid).head? := by
    unfold predict forward
    rw [List.getLastD_cons, List.getLastD_eq_getLast?, hz, Option.getD_some]
  rw [hpred] at hv
  rw [List.head?_map] at hv
  obtain ⟨z0, _, rfl⟩ := Option.map_eq_some'.mp hv
  refine ⟨(sigmoid_mem_unit z0).1, (sigmoid_mem_unit z0).2, fun m hm => ?_⟩
  exact forwardAux_masks_none nn.leakyAlpha nn.dropoutRate (fun _ _ => 0)
    nn.weights 0 nn.biases x m hm

theorem predict_in_unit_interval_witness :
    0 ≤ sigmoid (0 + 1 * 1) ∧ sigmoid (0 + 1 * 1) ≤ 1 ∧
      noDropoutMasks (forward nnOne [1] false fun _ _ => 0) :=
  predict_in_unit_interval nnOne [1] (sigmoid (0 + 1 * 1))
    (List.cons_ne_nil _ _) rfl

/-- Network expecting two inputs: a single output row `[1, 1]` with bias 0. -/
noncomputable def nnWide : NeuralNetwork where
  inputSize := 2
  hiddenLayers := []
  outputSize := 1
  learningRate := 0.001
  momentum := 0.9
  l2Lambda := 0.0001
  dropoutRate := 0.2
  leakyAlpha := 0.01
  epochs := 0
  trainingLoss := []
  validationLoss := []
  bestLoss := ⊤
  patience := 10
  patienceCounter := 0
  weights := [[[1, 1]]]
  biases := [[0]]
  velocities := [([[0, 0]], [0])]

/-- C4 (evidence of the divergence): the source contains no `DimensionError`
and no length check whatsoever; `predict` on the one-element input `[5]`,
although the network is configured for two inputs, silently computes the
partial dot product and returns `sigmoid(0 + 1·5)` instead of failing. -/
theorem predict_mismatched_input_silently_computes :
    [(5 : ℝ)].length ≠ nnWide.inputSize ∧
      predict nnWide [5] = some (sigmoid (0 + 1 * 5)) :=
  ⟨by decide, rfl⟩

/-- Every entry of the list lies in the closed unit interval. -/
def inUnitInterval (l : List ℝ) : Prop := ∀ p ∈ l, 0 ≤ p ∧ p ≤ 1

/-- Every individual's position vector lies in `[0,1]` componentwise. -/
def popInUnitInterval (pop : List Individual) : Prop :=
  ∀ ind ∈ pop, inUnitInterval ind.position

/-- The global best position, when present, lies in `[0,1]` componentwise. -/
def gbInUnitInterval (gb : Option (List ℝ)) : Prop :=
  ∀ g, gb = some g → inUnitInterval g

/-- Every decoded parameter lies within its declared `[min, max]` bounds. -/
def paramsWithinBounds (pos : List ℝ) (bounds : List (ℚ × ℚ)) : Prop :=
  ∀ i < bounds.length,
    ((bounds.getD i (0, 0)).1 : ℝ) ≤ (mapPositionToParams pos bounds).getD i 0 ∧
      (mapPositionToParams pos bounds).getD i 0 ≤ ((bounds.getD i (0, 0)).2 : ℝ)

theorem getD_mem_unit {l : List ℝ} (h : inUnitInterval l) (d : ℕ) :
    0 ≤ l.getD d 0 ∧ l.getD d 0 ≤ 1 := by
  by_cases hd : d < l.length
  · rw [List.getD_eq_getElem l 0 hd]
    exact h _ (List.getElem_mem hd)
  · rw [List.getD_eq_default l 0 (le_of_not_lt hd)]
    norm_num

theorem min_max_mem_unit (x : ℝ) : 0 ≤ min 1 (max 0 x) ∧ min 1 (max 0 x) ≤ 1 :=
  ⟨le_min (by norm_num) (le_max_left 0 x), min_le_left _ _⟩

theorem clamp01_mem_unit (x : ℝ) : 0 ≤ clamp01 x ∧ clamp01 x ≤ 1 :=
  min_max_mem_unit x

theorem set_preserves_unit {l : List ℝ} (h : inUnitInterval l) {v : ℝ}
    (hv : 0 ≤ v ∧ v ≤ 1) (d : ℕ) : inUnitInterval (l.set d v) := by
  intro p hp
  rcases List.mem_or_eq_of_mem_set hp with h1 | rfl
  · exact h p h1
  · exact hv

theorem convex_mem_unit {a b t : ℝ} (ha0 : 0 ≤ a) (ha1 : a ≤ 1) (hb0 : 0 ≤ b)
    (hb1 : b ≤ 1) (ht0 : 0 ≤ t) (ht1 : t ≤ 1) :
    0 ≤ a * (1 - t) + b * t ∧ a * (1 - t) + b * t ≤ 1 :=
  ⟨by nlinarith, by nlinarith⟩

theorem rotateDim_preserves_unit (gb : Option (List ℝ)) (hgb : gbInUnitInterval gb)
    (baseStep : ℝ) (st : List ℝ × List ℝ × RngState) (hst : inUnitInterval st.1)
    (d : ℕ) : inUnitInterval (rotateDim gb baseStep st d).1 := by
  cases gb with
  | none => exact set_preserves_unit hst (clamp01_mem_unit _) d
  | some g =>
      refine set_preserves_unit hst ?_ d
      exact convex_mem_unit (getD_mem_unit hst d).1 (getD_mem_unit hst d).2
        (getD_mem_unit (hgb g rfl) d).1 (getD_mem_unit (hgb g rfl) d).2
        (min_max_mem_unit _).1 (min_max_mem_unit _).2

theorem foldl_rotateDim_preserves (gb : Option (List ℝ))
    (hgb : gbInUnitInterval gb) (baseStep : ℝ) :
    ∀ (ds : List ℕ) (st : List ℝ × List ℝ × RngState), inUnitInterval st.1 →
      inUnitInterval ((ds.foldl (rotateDim gb baseStep) st).1) := by
  intro ds
  induction ds with
  | nil => intro st h; exact h
  | cons d ds ih =>
      intro st h
      exact ih _ (rotateDim_preserves_unit gb hgb baseStep st h d)

theorem quantumRotate_preserves_unit (ind : Individual) (gb : Option (List ℝ))
    (hgb : gbInUnitInterval gb) (iter maxIter : ℕ) (s : RngState)
    (hpos : inUnitInterval ind.position) :
    inUnitInterval (quantumRotate ind gb iter maxIter s).1.position :=
  foldl_rotateDim_preserves gb hgb _ _ _ hpos

theorem quantumTunnel_preserves_unit (ind : Individual) (s : RngState) (tp : ℝ)
    (hpos : inUnitInterval ind.position) :
    inUnitInterval (quantumTunnel ind s tp).1.position := by
  unfold quantumTunnel
  by_cases h : (((rngRandom s).1 : ℝ)) < tp
  · rw [if_pos h]
    exact set_preserves_unit hpos (clamp01_mem_unit _) _
  · rw [if_neg h]
    exact hpos

theorem mkDims_position_unit : ∀ (d : ℕ) (s : RngState),
    inUnitInterval (mkDims d s).1 := by
  intro d
  induction d with
  | zero => intro s p hp; simp [mkDims] at hp
  | succ n ih =>
      intro s p hp
      simp only [mkDims, List.mem_cons] at hp
      rcases hp with rfl | hp
      · constructor
        · exact_mod_cast rngRandom_nonneg s
        · exact le_of_lt (by exact_mod_cast rngRandom_lt_one s)
      · exact ih _ p hp

theorem initializePopulation_unit (dim : ℕ) : ∀ (popSize : ℕ) (s : RngState),
    popInUnitInterval (initializePopulation dim popSize s).1 := by
  intro popSize
  induction popSize with
  | zero => intro s ind hind; simp [initializePopulation] at hind
  | succ n ih =>
      intro s ind hind
      simp only [initializePopulation, List.mem_cons] at hind
      rcases hind with rfl | hind
      · exact mkDims_position_unit dim s
      · exact ih _ ind hind

theorem mapPositionToParams_bounds (bounds : List (ℚ × ℚ))
    (hb : ∀ b ∈ bounds, b.1 ≤ b.2) (pos : List ℝ) (hp : inUnitInterval pos) :
    paramsWithinBounds pos bounds := by
  intro i hi
  have hlen : i < ((List.range bounds.length).map fun j =>
      let b := bounds.getD j (0, 0)
      let raw : ℝ := (b.1 : ℝ) + pos.getD j 0 * ((b.2 : ℝ) - (b.1 : ℝ))
      if b.1.den = 1 ∧ b.2.den = 1 then ((jsRound raw : ℤ) : ℝ) else raw).length := by
    simpa using hi
  unfold mapPositionToParams
  rw [List.getD_eq_getElem _ 0 hlen, List.getElem_map, List.getElem_range]
  dsimp only
  have hmem : bounds.getD i (0, 0) ∈ bounds := by
    rw [List.getD_eq_getElem _ _ hi]
    exact List.getElem_mem hi
  have hle : ((bounds.getD i (0, 0)).1 : ℝ) ≤ ((bounds.getD i (0, 0)).2 : ℝ) := by
    exact_mod_cast hb _ hmem
  obtain ⟨hp0, hp1⟩ := getD_mem_unit hp i
  set b := bounds.getD i (0, 0)
  set p := pos.getD i 0 with hpdef
  have hraw1 : (b.1 : ℝ) ≤ (b.1 : ℝ) + p * ((b.2 : ℝ) - (b.1 : ℝ)) := by nlinarith
  have hraw2 : (b.1 : ℝ) + p * ((b.2 : ℝ) - (b.1 : ℝ)) ≤ (b.2 : ℝ) := by nlinarith
  by_cases hint : b.1.den = 1 ∧ b.2.den = 1
  · rw [if_pos hint]
    have e1 : ((b.1.num : ℤ) : ℝ) = (b.1 : ℝ) := by
      have h1 := (Rat.den_eq_one_iff b.1).mp hint.1
      exact_mod_cast congrArg (fun q : ℚ => (q : ℝ)) h1
    have e2 : ((b.2.num : ℤ) : ℝ) = (b.2 : ℝ) := by
      have h2 := (Rat.den_eq_one_iff b.2).mp hint.2
      exact_mod_cast congrArg (fun q : ℚ => (q : ℝ)) h2
    have hfl1 : (b.1.num : ℤ) ≤ jsRound ((b.1 : ℝ) + p * ((b.2 : ℝ) - (b.1 : ℝ))) := by
      unfold jsRound
      refine Int.le_floor.mpr ?_
      rw [e1]
      linarith
    have hfl2 : jsRound ((b.1 : ℝ) + p * ((b.2 : ℝ) - (b.1 : ℝ))) ≤ b.2.num := by
      unfold jsRound
      refine Int.lt_add_one_iff.mp (Int.floor_lt.mpr ?_)
      push_cast
      rw [e2]
      linarith
    constructor
    · calc (b.1 : ℝ) = ((b.1.num : ℤ) : ℝ) := e1.symm
        _ ≤ _ := by exact_mod_cast hfl1
    · calc ((jsRound ((b.1 : ℝ) + p * ((b.2 : ℝ) - (b.1 : ℝ))) : ℤ) : ℝ)
          ≤ ((b.2.num : ℤ) : ℝ) := by exact_mod_cast hfl2
        _ = (b.2 : ℝ) := e2
  · rw [if_neg hint]
    exact ⟨hraw1, hraw2⟩

/-- C6: positions stay in `[0, 1]` under initialization (uniform draws),
quantum rotation (a convex blend toward the global best weighted by the
clamped survival probability `cos²θ`, or a clamped perturbation when no best
exists yet) and tunneling (a clamped offset); and the decode map
`min + position·(max − min)`, with `Math.round` applied when both declared
bounds are integers, therefore never leaves the declared interval of any
dimension. -/
theorem positions_and_params_stay_in_bounds
    (dim popSize : ℕ) (s0 : RngState) (ind : Individual) (gb : Option (List ℝ))
    (iter maxIter : ℕ) (s : RngState) (tp : ℝ) (bounds : List (ℚ × ℚ))
    (pos : List ℝ)
    (hpos : inUnitInterval ind.position)
    (hgb : gbInUnitInterval gb)
    (hb : ∀ b ∈ bounds, b.1 ≤ b.2)
    (hp2 : inUnitInterval pos) :
    popInUnitInterval (initializePopulation dim popSize s0).1 ∧
      inUnitInterval (quantumRotate ind gb iter maxIter s).1.position ∧
      inUnitInterval (quantumTunnel ind s tp).1.position ∧
      paramsWithinBounds pos bounds :=
  ⟨initializePopulation_unit dim popSize s0,
    quantumRotate_preserves_unit ind gb hgb iter maxIter s hpos,
    quantumTunnel_preserves_unit ind s tp hpos,
    mapPositionToParams_bounds bounds hb pos hp2⟩

/-- Individual with a one-dimensional position at the domain midpoint. -/
noncomputable def ind0 : Individual := ⟨[1 / 2], [0], ⊥⟩

/-- One declared integer bound pair. -/
def bounds0 : List (ℚ × ℚ) := [(0, 10)]

theorem positions_and_params_stay_in_bounds_witness :
    popInUnitInterval (initializePopulation 1 1 1).1 ∧
      inUnitInterval (quantumRotate ind0 none 0 1 1).1.position ∧
      inUnitInterval (quantumTunnel ind0 1 0).1.position ∧
      paramsWithinBounds [1 / 2] bounds0 :=
  positions_and_params_stay_in_bounds 1 1 1 ind0 none 0 1 1 0 bounds0 [1 / 2]
    (by intro p hp
        simp only [ind0, List.mem_singleton] at hp
        subst hp
        norm_num)
    (fun g h => nomatch h)
    (by intro b hb
        simp only [bounds0, List.mem_singleton] at hb
        subst hb
        norm_num)
    (by intro p hp
        simp only [List.mem_singleton] at hp
        subst hp
        norm_num)

/-- The dimension index the tunneling event picks: `rng.int(position.length)`
drawn right after the trigger draw. -/
def tunnelChosenDim (ind : Individual) (s : RngState) : ℕ :=
  (rngInt (rngRandom s).2 ind.position.length).1

/-- Formalization of the full-replacement reading of tunneling: if the fresh
value replaced the chosen dimension outright, it would be a function of the
rng stream alone, so two individuals of the same dimension count fed the
same rng state would receive the same new value at the chosen dimension. -/
def tunnelReplacesOutright : Prop :=
  ∀ (s : RngState) (p : ℝ) (a b : Individual),
    a.position.length = b.position.length →
    ((rngRandom s).1 : ℝ) < p →
    (quantumTunnel a s p).1.position.getD (tunnelChosenDim a s) 0 =
      (quantumTunnel b s p).1.position.getD (tunnelChosenDim b s) 0

theorem rngInt_one (s : RngState) : (rngInt s 1).1 = 0 := by
  unfold rngInt
  have h : ⌊(rngRandom s).1⌋ = 0 :=
    Int.floor_eq_zero_iff.mpr ⟨rngRandom_nonneg s, rngRandom_lt_one s⟩
  simp [h]

theorem clamp01_eq_of_mem {x : ℝ} (h0 : 0 ≤ x) (h1 : x ≤ 1) : clamp01 x = x := by
  unfold clamp01
  rw [max_eq_right h0, min_eq_right h1]

theorem tunnel_single (x : ℝ) (s : RngState) (p : ℝ)
    (hfire : ((rngRandom s).1 : ℝ) < p) :
    (quantumTunnel ⟨[x], [0], ⊥⟩ s p).1.position.getD
        (tunnelChosenDim ⟨[x], [0], ⊥⟩ s) 0 =
      clamp01 (x + (((rngRandom (rngInt (rngRandom s).2 1).2).1 : ℝ) - 0.5) * 0.2) := by
  unfold quantumTunnel tunnelChosenDim
  rw [if_pos hfire]
  simp only [List.length_singleton, rngInt_one, List.set_cons_zero,
    List.getD_cons_zero]

/-- C7 counterexample: fed the identical rng state (seed 1, certain fire),
the tunneling step moves the incoming positions `[1/4]` and `[1/2]` to two
different results — the new value depends on the old one, so the chosen
dimension is perturbed, not replaced with a fresh uniformly drawn value. -/
theorem quantumTunnel_not_full_replacement : ¬tunnelReplacesOutright := by
  intro h
  have hfire : ((rngRandom 1).1 : ℝ) < 1 := by exact_mod_cast rngRandom_lt_one 1
  have heq := h 1 1 ⟨[1 / 4], [0], ⊥⟩ ⟨[1 / 2], [0], ⊥⟩ rfl hfire
  rw [tunnel_single (1 / 4) 1 1 hfire, tunnel_single (1 / 2) 1 1 hfire] at heq
  have hq0 : (0 : ℝ) ≤ ((rngRandom (rngInt (rngRandom 1).2 1).2).1 : ℝ) := by
    exact_mod_cast rngRandom_nonneg _
  have hq1 : ((rngRandom (rngInt (rngRandom 1).2 1).2).1 : ℝ) < 1 := by
    exact_mod_cast rngRandom_lt_one _
  rw [clamp01_eq_of_mem (by nlinarith) (by nlinarith),
    clamp01_eq_of_mem (by nlinarith) (by nlinarith)] at heq
  have : (1 / 4 : ℝ) = 1 / 2 := by linarith
  norm_num at this

/-- The individual is unchanged on every dimension other than `dim`. -/
def unchangedOutside (ind ind2 : Individual) (dim : ℕ) : Prop :=
  ∀ j, j ≠ dim →
    ind2.position.getD j 0 = ind.position.getD j 0 ∧
      ind2.theta.getD j 0 = ind.theta.getD j 0

theorem abs_clamp01_sub_le {old d : ℝ} (h0 : 0 ≤ old) (h1 : old ≤ 1)
    (hd : |d| ≤ 1 / 10) : |clamp01 (old + d) - old| ≤ 1 / 10 := by
  rw [abs_le] at hd
  unfold clamp01
  rw [abs_le]
  constructor
  · have h2 : old - 1 / 10 ≤ max 0 (old + d) :=
      le_trans (by linarith) (le_max_right 0 (old + d))
    have h3 : old - 1 / 10 ≤ 1 := by linarith
    have := le_min h3 h2
    linarith
  · rcases le_or_lt (old + d) 0 with hc | hc
    · rw [max_eq_left (by linarith), min_eq_right (by norm_num : (0 : ℝ) ≤ 1)]
      linarith
    · rw [max_eq_right (le_of_lt hc)]
      have := min_le_right (1 : ℝ) (old + d)
      linarith

/-- C7 amended: when the tunneling event fires it picks one random dimension
and perturbs it in place — the position moves by the bounded clamped offset
`(rng.random() − 0.5) * 0.2` (at most `0.1` in magnitude from a position in
`[0, 1]`) and every other dimension of position and theta is untouched — a
bounded local perturbation of the existing value, not a replacement by a
fresh uniform draw. -/
theorem quantumTunnel_perturbs_one_dimension (ind : Individual) (s : RngState)
    (p : ℝ) (hfire : ((rngRandom s).1 : ℝ) < p)
    (hpos : inUnitInterval ind.position) :
    (quantumTunnel ind s p).1.position.length = ind.position.length ∧
      (quantumTunnel ind s p).1.theta.length = ind.theta.length ∧
      unchangedOutside ind (quantumTunnel ind s p).1 (tunnelChosenDim ind s) ∧
      |(quantumTunnel ind s p).1.position.getD (tunnelChosenDim ind s) 0 -
        ind.position.getD (tunnelChosenDim ind s) 0| ≤ 1 / 10 := by
  have hq0 : (0 : ℝ) ≤
      ((rngRandom (rngInt (rngRandom s).2 ind.position.length).2).1 : ℝ) := by
    exact_mod_cast rngRandom_nonneg _
  have hq1 : ((rngRandom (rngInt (rngRandom s).2 ind.position.length).2).1 : ℝ) < 1 := by
    exact_mod_cast rngRandom_lt_one _
  unfold quantumTunnel tunnelChosenDim
  rw [if_pos hfire]
  dsimp only
  refine ⟨List.length_set _ _ _, List.length_set _ _ _, fun j hj => ?_, ?_⟩
  · constructor
    · rw [List.getD_eq_getElem?_getD, List.getElem?_set_ne (Ne.symm hj)]
      exact (List.getD_eq_getElem?_getD _ _ _).symm
    · rw [List.getD_eq_getElem?_getD, List.getElem?_set_ne (Ne.symm hj)]
      exact (List.getD_eq_getElem?_getD _ _ _).symm
  · by_cases hlt :
        (rngInt (rngRandom s).2 ind.position.length).1 < ind.position.length
    · rw [List.getD_eq_getElem?_getD, List.getElem?_set_self hlt, Option.getD_some]
      refine abs_clamp01_sub_le (getD_mem_unit hpos _).1 (getD_mem_unit hpos _).2 ?_
      rw [abs_le]
      constructor <;> nlinarith
    · rw [List.set_eq_of_length_le (le_of_not_lt hlt), sub_self, abs_zero]
      norm_num

theorem quantumTunnel_perturbs_one_dimension_witness :
    (quantumTunnel ind0 1 1).1.position.length = ind0.position.length ∧
      (quantumTunnel ind0 1 1).1.theta.length = ind0.theta.length ∧
      unchangedOutside ind0 (quantumTunnel ind0 1 1).1 (tunnelChosenDim ind0 1) ∧
      |(quantumTunnel ind0 1 1).1.position.getD (tunnelChosenDim ind0 1) 0 -
        ind0.position.getD (tunnelChosenDim ind0 1) 0| ≤ 1 / 10 :=
  quantumTunnel_perturbs_one_dimension ind0 1 1
    (by exact_mod_cast rngRandom_lt_one 1)
    (by intro p hp
        simp only [ind0, List.mem_singleton] at hp
        subst hp
        norm_num)

/-- Some state of the increment/reset bookkeeping reaches the configured
patience. -/
def reachesPatience (patience : ℕ) (losses : List ℚ) : Prop :=
  ∃ st ∈ esScan (⊤, 0) losses, patience ≤ st.2

/-- Some state of the bookkeeping strictly exceeds the configured patience
(the claim's wording). -/
def exceedsPatience (patience : ℕ) (losses : List ℚ) : Prop :=
  ∃ st ∈ (esScan (⊤, 0) losses).tail, patience < st.2

/-- Some epoch's validation loss drops below the threshold `eps`. -/
def dropsBelowThreshold (eps : ℚ) (losses : List ℚ) : Prop :=
  ∃ v ∈ losses, v < eps

/-- The claim's reading of the training loop exit (for the source's
configured patience of 10): there is some fixed small positive threshold
such that the loop stops early exactly when the counter exceeds the patience
or some epoch loss drops below the threshold. -/
def earlyStopClaim : Prop :=
  ∃ eps : ℚ, 0 < eps ∧ ∀ losses : List ℚ,
    (runEarlyStop 10 (⊤, 0) losses = true ↔
      exceedsPatience 10 losses ∨ dropsBelowThreshold eps losses)

/-- C8 counterexample: no loss threshold exists in the training loop.  With
validation losses `[0]` the loss is below every positive threshold, yet the
loop never stops early — it stops only through the patience counter. -/
theorem earlyStop_no_loss_threshold : ¬earlyStopClaim := by
  rintro ⟨eps, heps, h⟩
  have h1 := (h [0]).mpr (Or.inr ⟨0, by simp, heps⟩)
  have h2 : runEarlyStop 10 (⊤, 0) [0] = false := by decide
  rw [h2] at h1
  exact Bool.noConfusion h1

theorem self_mem_scanl {α β : Type} (f : β → α → β) (b : β) (l : List α) :
    b ∈ List.scanl f b l := by
  cases l with
  | nil => simp [List.scanl_nil]
  | cons a l => rw [List.scanl_cons]; simp

theorem runEarlyStop_iff_aux (patience : ℕ) (hp : 1 ≤ patience)
    (losses : List ℚ) :
    ∀ st : WithTop ℚ × ℕ, st.2 < patience →
      (runEarlyStop patience st losses = true ↔
        ∃ s ∈ esScan st losses, patience ≤ s.2) := by
  induction losses with
  | nil =>
      intro st hst
      rw [show runEarlyStop patience st [] = false from rfl]
      simp only [esScan, List.scanl_nil, List.mem_singleton, Bool.false_eq_true,
        false_iff, not_exists]
      rintro s ⟨rfl, hps⟩
      omega
  | cons v rest ih =>
      intro st hst
      rw [esScan, List.scanl_cons]
      by_cases himp : (v : WithTop ℚ) < st.1
      · have hrun : runEarlyStop patience st (v :: rest) =
            runEarlyStop patience ((v : WithTop ℚ), 0) rest := by
          simp only [runEarlyStop]
          rw [if_pos himp]
        have hstep : esStep st v = ((v : WithTop ℚ), 0) := by
          rw [esStep, if_pos himp]
        rw [hrun, hstep, ih ((v : WithTop ℚ), 0) (by omega)]
        constructor
        · rintro ⟨s, hs, hps⟩
          exact ⟨s, by simp [esScan] at hs ⊢; exact Or.inr hs, hps⟩
        · rintro ⟨s, hs, hps⟩
          simp only [List.singleton_append, List.mem_cons] at hs
          rcases hs with rfl | hs
          · omega
          · exact ⟨s, by simpa [esScan] using hs, hps⟩
      · by_cases htrig : patience ≤ st.2 + 1
        · have hrun : runEarlyStop patience st (v :: rest) = true := by
            simp only [runEarlyStop]
            rw [if_neg himp, if_pos htrig]
          have hstep : esStep st v = (st.1, st.2 + 1) := by
            rw [esStep, if_neg himp]
          rw [hrun, hstep]
          simp only [true_iff]
          refine ⟨(st.1, st.2 + 1), ?_, htrig⟩
          simp only [List.singleton_append, List.mem_cons]
          exact Or.inr (self_mem_scanl _ _ _)
        · have hrun : runEarlyStop patience st (v :: rest) =
              runEarlyStop patience (st.1, st.2 + 1) rest := by
            simp only [runEarlyStop]
            rw [if_neg himp, if_neg htrig]
          have hstep : esStep st v = (st.1, st.2 + 1) := by
            rw [esStep, if_neg himp]
          rw [hrun, hstep, ih (st.1, st.2 + 1) (by omega)]
          constructor
          · rintro ⟨s, hs, hps⟩
            exact ⟨s, by simp [esScan] at hs ⊢; exact Or.inr hs, hps⟩
          · rintro ⟨s, hs, hps⟩
            simp only [List.singleton_append, List.mem_cons] at hs
            rcases hs with rfl | hs
            · omega
            · exact ⟨s, by simpa [esScan] using hs, hps⟩

/-- C8 amended: the counter is incremented on every epoch that fails to
strictly improve the best validation loss and reset on every improving
epoch (`esStep`), and the loop stops early exactly when the counter reaches
(`≥`, not strictly exceeds) the configured patience at some epoch; there is
no loss-threshold exit. -/
theorem runEarlyStop_iff_reaches_patience (patience : ℕ) (hp : 1 ≤ patience)
    (losses : List ℚ) :
    runEarlyStop patience (⊤, 0) losses = true ↔
      reachesPatience patience losses :=
  runEarlyStop_iff_aux patience hp losses (⊤, 0) (by omega)

theorem runEarlyStop_iff_reaches_patience_witness :
    runEarlyStop 10 (⊤, 0) [5, 6, 4] = true ↔ reachesPatience 10 [5, 6, 4] :=
  runEarlyStop_iff_reaches_patience 10 (by norm_num) [5, 6, 4]

end NewBets
